import Mathlib

/-!
# Channel tools (`src/typetools/chantools.c`)

A shallow embedding of the two operations of `chantools.c`:

* `ChanDebug`, the inspector, which prints the structural state of a channel;
* `ChanRead`, the bulk drain, which copies the buffered elements of a channel
  into a fresh array when at least `minnum` of them are buffered.

Conventions of the embedding.

* The fields of `Hchan` are unsigned machine integers; they are natural numbers
  here, and the one product the code computes in 32-bit arithmetic
  (`size = c->elemsize * c->qcount`) is reduced modulo `2^32` explicitly.
* The loop counters `i` and `j` are `int32` in the source, and `int32`
  arithmetic wraps modulo `2^32` (`toInt32`).  The comparisons `i < c->sendx`
  and `i < c->dataqsiz` are made after conversion to `uint32`, and `i` stays
  below `c->sendx`, so the loops run `i` through natural numbers; where `i` is
  used as an index, in `chanbuf(c, i)`, it is the `int32` value `toInt32 i`.
  The counter `j` is kept as the `int32` it is, and the destination of a copy is
  the byte offset `j * c->elemsize` as the `int32` product gives it.
* Elements are values of a type `α`; slot `i` of the circular buffer is the
  element stored at `chanbuf(c, i)`, and position `k` of a block is the element
  stored at byte offset `k * c->elemsize` of it.  The block `runtime·mal(size)`
  returns has `size` bytes: a copy whose destination does not lie inside it at
  the offset of position `j`, or whose source index is negative, leaves the
  block as it is and sets the flag `fault`.
* Every call of an external routine (`runtime·lock`, `runtime·unlock`,
  `runtime·printf`, `runtime·mal`, `elemalg->copy`) is recorded, in program
  order, in a trace of `Event`s.
-/

namespace Chantools

/-! ## Data model -/

/-- One blocked endpoint of a wait queue (`struct SudoG`): the task `g` with its
generation tag `selgen`, and the address `elem` of its data element.  The `link`
pointer is the list structure of `WaitQ`. -/
structure SudoG where
  g : Nat
  selgen : Nat
  elem : Nat
deriving DecidableEq

/-- A wait queue (`struct WaitQ`): the linked list running from `first` to
`last`. -/
structure WaitQ where
  waiting : List SudoG
deriving DecidableEq

/-- The channel (`struct Hchan`).  `elemalg` is the address of the element
algorithm table, `lock` tells whether the embedded `Lock` is held, and `buf i`
is the element stored in slot `i`, at address `chanbuf(c, i)`. -/
structure Hchan (α : Type) where
  qcount : Nat
  dataqsiz : Nat
  elemsize : Nat
  closed : Bool
  elemalign : Nat
  elemalg : Nat
  sendx : Nat
  recvx : Nat
  recvq : WaitQ
  sendq : WaitQ
  lock : Bool
  buf : Nat → α

/-- The calls of external routines made by the two operations.
`copy size dst src` is the call `elemalg->copy(size, ret + dst, chanbuf(c, src))`:
`dst` is the byte offset added to `ret`, the `int32` product `j * c->elemsize`,
and `src` is the index handed to `chanbuf`, the `int32` value of `i`. -/
inductive Event where
  | lock : Event
  | unlock : Event
  | printf (fmt : String) (args : List Nat) : Event
  | mal (size : Nat) : Event
  | copy (size : Nat) (dst : Int) (src : Int) : Event
deriving DecidableEq

/-- The outcome of `ChanDebug`: the channel after the call and the trace of
external calls. -/
structure Report (α : Type) where
  c : Hchan α
  trace : List Event

/-- The outcome of `ChanRead`: the channel after the call, the final values of
the result slots `ret`, `len` and `size` of the argument frame (`ret = none` is
the `nil` pointer, `ret = some d` a block whose element at position `j` is
`d j`), the trace of external calls, and the flag `fault`, set when a copy call
did not store its element inside the block `runtime·mal` returned. -/
structure Frame (α : Type) where
  c : Hchan α
  ret : Option (Nat → α)
  len : Nat
  size : Nat
  trace : List Event
  fault : Bool

/-- The state of the copy loops of `ChanRead`: the `int32` counter `j`, the
contents of the destination block, the flag `fault`, and the trace so far. -/
structure CopyState (α : Type) where
  j : Int
  dst : Nat → α
  fault : Bool
  trace : List Event

variable {α : Type}

/-! ## Machine integers -/

/-- The value an `int32` takes when the exact result of a computation is `n`:
the representative of `n` modulo `2^32` in `[-2^31, 2^31)`. -/
def toInt32 (n : Int) : Int := (n + 2147483648) % 4294967296 - 2147483648

/-! ## External routines -/

/-- The slot address macro `chanbuf(c, i)` for an index `i` that is not
negative, read as the element stored there.  `copyStep` forms the index as the
`int32` value of its counter and reads the slot only when that is not
negative. -/
def chanbuf (c : Hchan α) (i : Nat) : α := c.buf i

/-- Modelled from the spec: the external `runtime·lock` on the lock embedded in
the channel; acquisition is infallible and leaves the lock held. -/
def runtime_lock (c : Hchan α) : Hchan α := { c with lock := true }

/-- Modelled from the spec: the external `runtime·unlock` on the lock embedded
in the channel; it leaves the lock free. -/
def runtime_unlock (c : Hchan α) : Hchan α := { c with lock := false }

/-- Modelled from the spec: the copy operation of the element algorithm,
`copy(size, destination, source)`, which stores the source element at position
`j` of the destination. -/
def elemalg_copy (_size : Nat) (dst : Nat → α) (j : Nat) (src : α) : Nat → α :=
  Function.update dst j src

/-! ## `ChanDebug` -/

/-- The inspector `ChanDebug(t, c)`; `p` is the address held by the pointer
`c`, printed with `%p`. -/
def ChanDebug (t p : Nat) (c : Hchan α) : Report α :=
  let c := runtime_lock c
  let tr := [Event.lock,
    Event.printf "Type: %x, ChanPtr: %p\n" [t, p],
    Event.printf "QSize:%d, Elem:%d\n" [c.dataqsiz, c.elemsize],
    Event.printf "Value count: %d\n" [c.qcount]]
  if c.dataqsiz < 1 then
    { c := c,
      trace := tr ++ [Event.printf "Cannot peek on an unbuffered channel\n" []] }
  else
    { c := runtime_unlock c,
      trace := tr ++
        [Event.printf "Peeking at [recv:%d send:%d %d/%d]\n"
            [c.recvx, c.sendx, c.qcount, c.dataqsiz],
         Event.unlock] }

/-! ## `ChanRead` -/

/-- Whether the copy call made with counters `j` and `i` stores an element of
the buffer at position `j` of a block of `size` bytes: `j` is not negative, the
product `j * elemsize` has not wrapped, the `elemsize` bytes from that offset on
lie inside the block, and the index `toInt32 i` is not negative. -/
def copyInside (elemsize size : Nat) (j : Int) (i : Nat) : Bool :=
  decide (0 ≤ j ∧ toInt32 (j * elemsize) = j * elemsize ∧
    j * elemsize + elemsize ≤ size ∧ 0 ≤ toInt32 i)

/-- The body shared by the two copy loops, for a block of `size` bytes:
`c->elemalg->copy(c->elemsize, ret + j * c->elemsize, chanbuf(c, i)); j++`. -/
def copyStep (c : Hchan α) (size : Nat) (i : Nat) (s : CopyState α) : CopyState α :=
  { j := toInt32 (s.j + 1),
    dst :=
      if copyInside c.elemsize size s.j i then
        elemalg_copy c.elemsize s.dst s.j.toNat (chanbuf c (toInt32 i).toNat)
      else s.dst,
    fault := s.fault || !copyInside c.elemsize size s.j i,
    trace := s.trace ++
      [Event.copy c.elemsize (toInt32 (s.j * c.elemsize)) (toInt32 i)] }

/-- The copy calls `copyStep` for the source slots of a list, in order: what a
copy loop does when its counter runs through the list. -/
def runCopies (c : Hchan α) (size : Nat) (slots : List Nat) (s : CopyState α) :
    CopyState α :=
  slots.foldl (fun s i => copyStep c size i s) s

/-- The first loop, `for (i = c->recvx; i < c->sendx && i < c->dataqsiz; i++)`,
from counter value `i` on, with at most `fuel` iterations. -/
def copyLoop1 (c : Hchan α) (size : Nat) : Nat → Nat → CopyState α → CopyState α
  | 0, _, s => s
  | fuel + 1, i, s =>
    if i < c.sendx ∧ i < c.dataqsiz then
      copyLoop1 c size fuel (i + 1) (copyStep c size i s)
    else s

/-- The second loop, `for (i = 0; i < c->sendx; i++)`, from counter value `i`
on, with at most `fuel` iterations. -/
def copyLoop2 (c : Hchan α) (size : Nat) : Nat → Nat → CopyState α → CopyState α
  | 0, _, s => s
  | fuel + 1, i, s =>
    if i < c.sendx then copyLoop2 c size fuel (i + 1) (copyStep c size i s)
    else s

/-- The copy phase of `ChanRead`, lines 79 to 90, into a block of `size` bytes:
the first loop from `i = c->recvx`, then, if `c->sendx < c->recvx`, the second
loop from `i = 0`.  The loops get as much fuel as the counter has room below
`c->sendx`, which they never exhaust (`copyLoops_eq_runCopies`). -/
def copyLoops (c : Hchan α) (size : Nat) (s : CopyState α) : CopyState α :=
  let s := copyLoop1 c size (c.sendx - c.recvx) c.recvx s
  if c.sendx < c.recvx then copyLoop2 c size c.sendx 0 s else s

/-- The source slots the copy phase reads, in order, as the loop headers give
them: `recvx, ..., min sendx dataqsiz - 1`, then `0, ..., sendx - 1` if
`sendx < recvx`. -/
def copySlots (c : Hchan α) : List Nat :=
  List.range' c.recvx (min c.sendx c.dataqsiz - c.recvx) ++
    (if c.sendx < c.recvx then List.range' 0 c.sendx else [])

/-- The bulk drain `ChanRead(t, c, minnum, ret, len, size)`.  `mal size` is the
content of the block that `runtime·mal(size)` returns, `p` is the address held
by the pointer `c`, and `ret`, `len`, `size` are the result slots of the
argument frame as the caller left them. -/
def ChanRead (mal : Nat → Nat → α) (t p : Nat) (c : Hchan α) (minnum : Nat)
    (_ret : Option (Nat → α)) (_len size : Nat) : Frame α :=
  let c := runtime_lock c
  let tr := [Event.lock, Event.printf "%d <= %d?\n" [minnum, c.qcount]]
  let len := c.qcount
  if c.qcount < minnum then
    { c := runtime_unlock c, ret := none, len := len, size := size,
      trace := tr ++ [Event.unlock], fault := false }
  else
    let size := (c.elemsize * c.qcount) % 2 ^ 32
    let ret := mal size
    let tr := tr ++
      [Event.mal size,
       Event.printf "ChanPtr: %p, %x\n" [p, t],
       Event.printf "QSize:%d, Elem:%d\n" [c.dataqsiz, c.elemsize],
       Event.printf "Value count: %d\n" [c.qcount]]
    if c.dataqsiz < 1 then
      { c := runtime_unlock c, ret := some ret, len := len, size := size,
        trace := tr ++
          [Event.printf "Cannot peek on an unbuffered channel\n" [],
           Event.unlock],
        fault := false }
    else
      let tr := tr ++
        [Event.printf "Reading [recv:%d send:%d %d/%d]\n"
          [c.recvx, c.sendx, c.qcount, c.dataqsiz]]
      let s := copyLoops c size { j := 0, dst := ret, fault := false, trace := tr }
      let c := { c with recvx := 0, sendx := 0 }
      let c := { c with qcount := 0 }
      { c := runtime_unlock c, ret := some s.dst, len := len, size := size,
        trace := s.trace ++ [Event.unlock], fault := s.fault }

/-- The array the caller of `ChanRead` receives: `none` for the `nil` pointer,
otherwise the `len` elements found at positions `0, ..., len - 1` of the block
`ret`, as the copies that stored their element inside the block left them. -/
def Frame.values (f : Frame α) : Option (List α) :=
  f.ret.map fun d => (List.range f.len).map d

/-- The copy calls of a trace, in order, as pairs of the destination and the
source of the call: the byte offset added to `ret` and the index handed to
`chanbuf`. -/
def copies : List Event → List (Int × Int)
  | [] => []
  | Event.copy _ j i :: es => (j, i) :: copies es
  | _ :: es => copies es

/-- The allocation requests of a trace, in order. -/
def allocations : List Event → List Nat
  | [] => []
  | Event.mal n :: es => n :: allocations es
  | _ :: es => allocations es

/-- An event of the lock: an acquisition or a release. -/
def Event.isLockEvent : Event → Bool
  | Event.lock => true
  | Event.unlock => true
  | _ => false

/-- The frames of `n` consecutive calls `ChanRead(t, c, minnum)`, each made on
the channel as the previous call left it, with result slots holding `ret`,
`len`, `size` at entry. -/
def ChanReadRepeat (mal : Nat → Nat → α) (t p minnum : Nat)
    (ret : Option (Nat → α)) (len size : Nat) : Nat → Hchan α → List (Frame α)
  | 0, _ => []
  | n + 1, c =>
    let f := ChanRead mal t p c minnum ret len size
    f :: ChanReadRepeat mal t p minnum ret len size n f.c

/-! ## The queue invariant and the external send path -/

/-- The queue invariant in the words of the spec, for a buffered channel: both
indices are positions in `[0, capacity)`, at most `capacity` elements are
buffered, and the `count` elements starting at `receiveIndex`, wrapping modulo
`capacity`, end immediately before `sendIndex`. -/
def QueueInv (c : Hchan α) : Prop :=
  1 ≤ c.dataqsiz ∧ c.recvx < c.dataqsiz ∧ c.sendx < c.dataqsiz ∧
    c.qcount ≤ c.dataqsiz ∧ c.sendx = (c.recvx + c.qcount) % c.dataqsiz

instance (c : Hchan α) : Decidable (QueueInv c) := by
  unfold QueueInv
  infer_instance

/-- The logical content of the queue in the words of the spec: the `count`
elements starting at slot `receiveIndex`, wrapping modulo `capacity`. -/
def logicalContent (c : Hchan α) : List α :=
  (List.range c.qcount).map fun k => chanbuf c ((c.recvx + k) % c.dataqsiz)

/-- Modelled from the spec: the buffered step of the external send path, which
writes slot `sendIndex`, advances `sendIndex` modulo `capacity` and increments
`count`. -/
def send (c : Hchan α) (e : α) : Hchan α :=
  { c with
    buf := Function.update c.buf c.sendx e,
    sendx := (c.sendx + 1) % c.dataqsiz,
    qcount := c.qcount + 1 }

/-- Modelled from the spec: an empty open channel of capacity `cap` as the
external constructor leaves it, with `count = sendIndex = receiveIndex = 0`, no
waiters, the lock free, and `init` in the slots. -/
def emptyChan (cap elemsize : Nat) (init : α) : Hchan α :=
  { qcount := 0, dataqsiz := cap, elemsize := elemsize, closed := false,
    elemalign := elemsize, elemalg := 0, sendx := 0, recvx := 0,
    recvq := { waiting := [] }, sendq := { waiting := [] }, lock := false,
    buf := fun _ => init }

/-! ## Concrete inputs -/

/-- The allocator of the runtime, which hands out zeroed blocks, for elements
that are numbers. -/
def zeroedMal : Nat → Nat → Nat := fun _ _ => 0

/-- An open channel of 8-byte numbers with no waiters and the lock free:
`count`, `capacity`, `sendIndex`, `receiveIndex`, and the slot contents. -/
def sampleChan (count cap sendx recvx : Nat) (slots : List Nat) : Hchan Nat :=
  { qcount := count, dataqsiz := cap, elemsize := 8, closed := false,
    elemalign := 8, elemalg := 0, sendx := sendx, recvx := recvx,
    recvq := { waiting := [] }, sendq := { waiting := [] }, lock := false,
    buf := fun i => slots.getD i 0 }

/-- An open channel of numbers with elements of `elemsize` bytes, no waiters
and the lock free, whose slot `i` holds the number `i + 1`. -/
def wideChan (elemsize count cap sendx recvx : Nat) : Hchan Nat :=
  { qcount := count, dataqsiz := cap, elemsize := elemsize, closed := false,
    elemalign := 1, elemalg := 0, sendx := sendx, recvx := recvx,
    recvq := { waiting := [] }, sendq := { waiting := [] }, lock := false,
    buf := fun i => i + 1 }

/-! ## The structural invariant and the report -/

/-- The structural invariant in the words of the spec: `0 <= count <= capacity`,
both indices are positions in `[0, capacity)` when `capacity >= 1`, and both
are 0 when `capacity == 0`. -/
def StructInv (c : Hchan α) : Prop :=
  c.qcount ≤ c.dataqsiz ∧
    (1 ≤ c.dataqsiz → c.sendx < c.dataqsiz ∧ c.recvx < c.dataqsiz) ∧
    (c.dataqsiz = 0 → c.sendx = 0 ∧ c.recvx = 0)

instance (c : Hchan α) : Decidable (StructInv c) := by
  unfold StructInv
  infer_instance

/-- The records a trace sends to the report sink, in order: the format and the
arguments of each `runtime·printf` call. -/
def printed : List Event → List (String × List Nat)
  | [] => []
  | Event.printf fmt args :: es => (fmt, args) :: printed es
  | _ :: es => printed es

/-! ## Closed forms of the copy phase -/

/-- The copy calls made for the source slots of a list when the counter `j`
starts at `j` and elements have `elemsize` bytes. -/
def copyEvents (elemsize : Nat) : Int → List Nat → List Event
  | _, [] => []
  | j, i :: is =>
    Event.copy elemsize (toInt32 (j * elemsize)) (toInt32 i) ::
      copyEvents elemsize (toInt32 (j + 1)) is

/-- The destination block of `size` bytes after the copies for the source slots
of a list, when the counter `j` starts at `j`, the block holds `d` and the slots
hold `buf`. -/
def copyDst (buf : Nat → α) (elemsize size : Nat) :
    List Nat → Int → (Nat → α) → (Nat → α)
  | [], _, d => d
  | i :: is, j, d =>
    copyDst buf elemsize size is (toInt32 (j + 1))
      (if copyInside elemsize size j i then
        Function.update d j.toNat (buf (toInt32 i).toNat)
      else d)

/-- The flag `fault` after the copies for the source slots of a list into a
block of `size` bytes, when the counter `j` starts at `j` and the flag at `f`. -/
def copyFault (elemsize size : Nat) : List Nat → Int → Bool → Bool
  | [], _, f => f
  | i :: is, j, f =>
    copyFault elemsize size is (toInt32 (j + 1)) (f || !copyInside elemsize size j i)

/-- The calls `ChanRead` makes on a buffered channel with enough elements,
before the copy phase. -/
def drainPrologue (t p : Nat) (c : Hchan α) (minnum : Nat) : List Event :=
  [Event.lock, Event.printf "%d <= %d?\n" [minnum, c.qcount],
   Event.mal ((c.elemsize * c.qcount) % 2 ^ 32),
   Event.printf "ChanPtr: %p, %x\n" [p, t],
   Event.printf "QSize:%d, Elem:%d\n" [c.dataqsiz, c.elemsize],
   Event.printf "Value count: %d\n" [c.qcount],
   Event.printf "Reading [recv:%d send:%d %d/%d]\n"
     [c.recvx, c.sendx, c.qcount, c.dataqsiz]]

/-! ## Lemmas on `int32` values -/

theorem toInt32_of_lt (n : Int) (h0 : 0 ≤ n) (h : n < 2147483648) : toInt32 n = n := by
  unfold toInt32
  omega

theorem toInt32_succ (n : Int) : toInt32 (toInt32 n + 1) = toInt32 (n + 1) := by
  unfold toInt32
  omega

theorem toInt32_natCast_succ (k : Nat) :
    toInt32 (toInt32 (k : Int) + 1) = toInt32 ((k + 1 : Nat) : Int) := by
  rw [toInt32_succ]
  norm_cast

/-! ## Lemmas on the copy loops -/

theorem runCopies_nil (c : Hchan α) (size : Nat) (s : CopyState α) :
    runCopies c size [] s = s := rfl

theorem runCopies_cons (c : Hchan α) (size i : Nat) (is : List Nat) (s : CopyState α) :
    runCopies c size (i :: is) s = runCopies c size is (copyStep c size i s) := rfl

/-- The first loop stops because its condition fails, not for want of fuel:
with at least `min sendx dataqsiz - i` units of fuel it performs the copy for
each of the slots `i, ..., min sendx dataqsiz - 1` in turn. -/
theorem copyLoop1_eq_runCopies (c : Hchan α) (size : Nat) :
    ∀ (fuel i : Nat) (s : CopyState α), min c.sendx c.dataqsiz - i ≤ fuel →
      copyLoop1 c size fuel i s =
        runCopies c size (List.range' i (min c.sendx c.dataqsiz - i)) s := by
  intro fuel
  induction fuel with
  | zero =>
    intro i s h
    have h0 : min c.sendx c.dataqsiz - i = 0 := by omega
    simp [copyLoop1, h0, runCopies_nil]
  | succ fuel ih =>
    intro i s h
    by_cases hg : i < c.sendx ∧ i < c.dataqsiz
    · have hlen : min c.sendx c.dataqsiz - i = (min c.sendx c.dataqsiz - (i + 1)) + 1 := by
        have := hg.1
        have := hg.2
        omega
      rw [copyLoop1, if_pos hg, ih (i + 1) _ (by omega), hlen, List.range'_succ,
        runCopies_cons]
    · have h0 : min c.sendx c.dataqsiz - i = 0 := by
        rcases Nat.lt_or_ge i c.sendx with h1 | h1
        · rcases Nat.lt_or_ge i c.dataqsiz with h2 | h2
          · exact absurd ⟨h1, h2⟩ hg
          · omega
        · omega
      rw [copyLoop1, if_neg hg, h0]
      rfl

/-- The second loop stops because its condition fails, not for want of fuel:
with at least `sendx - i` units of fuel it performs the copy for each of the
slots `i, ..., sendx - 1` in turn. -/
theorem copyLoop2_eq_runCopies (c : Hchan α) (size : Nat) :
    ∀ (fuel i : Nat) (s : CopyState α), c.sendx - i ≤ fuel →
      copyLoop2 c size fuel i s = runCopies c size (List.range' i (c.sendx - i)) s := by
  intro fuel
  induction fuel with
  | zero =>
    intro i s h
    have h0 : c.sendx - i = 0 := by omega
    simp [copyLoop2, h0, runCopies_nil]
  | succ fuel ih =>
    intro i s h
    by_cases hg : i < c.sendx
    · have hlen : c.sendx - i = (c.sendx - (i + 1)) + 1 := by omega
      rw [copyLoop2, if_pos hg, ih (i + 1) _ (by omega), hlen, List.range'_succ,
        runCopies_cons]
    · have h0 : c.sendx - i = 0 := by omega
      rw [copyLoop2, if_neg hg, h0]
      rfl

theorem runCopies_append (c : Hchan α) (size : Nat) (xs ys : List Nat) (s : CopyState α) :
    runCopies c size (xs ++ ys) s = runCopies c size ys (runCopies c size xs s) := by
  simp [runCopies, List.foldl_append]

/-- The copy phase performs the copy for each slot of `copySlots` in turn. -/
theorem copyLoops_eq_runCopies (c : Hchan α) (size : Nat) (s : CopyState α) :
    copyLoops c size s = runCopies c size (copySlots c) s := by
  unfold copyLoops copySlots
  simp only []
  rw [copyLoop1_eq_runCopies c size _ _ _ (by omega)]
  by_cases h : c.sendx < c.recvx
  · rw [if_pos h, if_pos h, copyLoop2_eq_runCopies c size _ _ _ (by omega), runCopies_append]
    simp
  · rw [if_neg h, if_neg h, List.append_nil]

/-- A run of copies in closed form: the block, the flag and the trace. -/
theorem runCopies_eq (c : Hchan α) (size : Nat) :
    ∀ (slots : List Nat) (s : CopyState α),
      (runCopies c size slots s).dst
          = copyDst c.buf c.elemsize size slots s.j s.dst ∧
        (runCopies c size slots s).fault
          = copyFault c.elemsize size slots s.j s.fault ∧
        (runCopies c size slots s).trace
          = s.trace ++ copyEvents c.elemsize s.j slots := by
  intro slots
  induction slots with
  | nil =>
    intro s
    simp [runCopies_nil, copyDst, copyFault, copyEvents]
  | cons i is ih =>
    intro s
    rw [runCopies_cons]
    obtain ⟨h1, h2, h3⟩ := ih (copyStep c size i s)
    rw [h1, h2, h3]
    simp [copyStep, copyDst, copyFault, copyEvents, elemalg_copy, chanbuf]

/-- The calls of a run of copies are copy calls, none of them on the lock. -/
theorem copyEvents_not_lock (elemsize : Nat) :
    ∀ (slots : List Nat) (j : Int), ∀ e ∈ copyEvents elemsize j slots,
      e.isLockEvent = false := by
  intro slots
  induction slots with
  | nil =>
    intro j e he
    simp [copyEvents] at he
  | cons i is ih =>
    intro j e he
    simp only [copyEvents, List.mem_cons] at he
    rcases he with rfl | he
    · rfl
    · exact ih _ e he

theorem copies_append (xs ys : List Event) : copies (xs ++ ys) = copies xs ++ copies ys := by
  induction xs with
  | nil => rfl
  | cons e es ih => cases e <;> simp [copies, ih]

theorem allocations_append (xs ys : List Event) :
    allocations (xs ++ ys) = allocations xs ++ allocations ys := by
  induction xs with
  | nil => rfl
  | cons e es ih => cases e <;> simp [allocations, ih]

theorem allocations_copyEvents (elemsize : Nat) :
    ∀ (slots : List Nat) (j : Int), allocations (copyEvents elemsize j slots) = [] := by
  intro slots
  induction slots with
  | nil => intro j; rfl
  | cons i is ih => intro j; simp [copyEvents, allocations, ih]

/-- The copy calls for a list of slots, when `k` copies have been made before:
copy number `n` has destination `int32 (int32 n * elemsize)` and source
`int32 i`. -/
theorem copies_copyEvents (elemsize : Nat) :
    ∀ (slots : List Nat) (k : Nat),
      copies (copyEvents elemsize (toInt32 (k : Int)) slots) =
        (slots.enumFrom k).map fun x =>
          (toInt32 (toInt32 (x.1 : Int) * elemsize), toInt32 (x.2 : Int)) := by
  intro slots
  induction slots with
  | nil => intro k; rfl
  | cons i is ih =>
    intro k
    simp only [copyEvents, copies, List.enumFrom, List.map_cons]
    rw [toInt32_natCast_succ, ih]

/-! ## The three exit paths of `ChanRead` -/

/-- The insufficient-data path, lines 54 to 63. -/
theorem ChanRead_insufficient (mal : Nat → Nat → α) (t p : Nat) (c : Hchan α)
    (minnum : Nat) (ret : Option (Nat → α)) (len size : Nat) (h : c.qcount < minnum) :
    ChanRead mal t p c minnum ret len size =
      { c := { c with lock := false }, ret := none, len := c.qcount, size := size,
        trace := [Event.lock, Event.printf "%d <= %d?\n" [minnum, c.qcount],
          Event.unlock],
        fault := false } := by
  simp [ChanRead, runtime_lock, runtime_unlock, h]

/-- The zero-capacity path, lines 54 to 75. -/
theorem ChanRead_unbuffered (mal : Nat → Nat → α) (t p : Nat) (c : Hchan α)
    (minnum : Nat) (ret : Option (Nat → α)) (len size : Nat) (h : minnum ≤ c.qcount)
    (h0 : c.dataqsiz < 1) :
    ChanRead mal t p c minnum ret len size =
      { c := { c with lock := false },
        ret := some (mal ((c.elemsize * c.qcount) % 2 ^ 32)),
        len := c.qcount, size := (c.elemsize * c.qcount) % 2 ^ 32,
        trace := [Event.lock, Event.printf "%d <= %d?\n" [minnum, c.qcount],
          Event.mal ((c.elemsize * c.qcount) % 2 ^ 32),
          Event.printf "ChanPtr: %p, %x\n" [p, t],
          Event.printf "QSize:%d, Elem:%d\n" [c.dataqsiz, c.elemsize],
          Event.printf "Value count: %d\n" [c.qcount],
          Event.printf "Cannot peek on an unbuffered channel\n" [],
          Event.unlock],
        fault := false } := by
  have h1 : ¬ c.qcount < minnum := by omega
  simp [ChanRead, runtime_lock, runtime_unlock, h1, h0]

/-- The drain path, lines 54 to 94, with the copy phase in closed form. -/
theorem ChanRead_drain (mal : Nat → Nat → α) (t p : Nat) (c : Hchan α)
    (minnum : Nat) (ret : Option (Nat → α)) (len size : Nat) (h : minnum ≤ c.qcount)
    (h0 : 1 ≤ c.dataqsiz) :
    ChanRead mal t p c minnum ret len size =
      { c := { c with lock := false, recvx := 0, sendx := 0, qcount := 0 },
        ret := some
          (copyDst c.buf c.elemsize ((c.elemsize * c.qcount) % 2 ^ 32) (copySlots c) 0
            (mal ((c.elemsize * c.qcount) % 2 ^ 32))),
        len := c.qcount, size := (c.elemsize * c.qcount) % 2 ^ 32,
        trace := drainPrologue t p c minnum ++ copyEvents c.elemsize 0 (copySlots c) ++
          [Event.unlock],
        fault := copyFault c.elemsize ((c.elemsize * c.qcount) % 2 ^ 32)
          (copySlots c) 0 false } := by
  have h1 : ¬ c.qcount < minnum := by omega
  have h2 : ¬ c.dataqsiz < 1 := by omega
  simp only [ChanRead, runtime_lock, runtime_unlock, h1, h2, if_false,
    copyLoops_eq_runCopies, runCopies_eq]
  rfl

/-! ## The drain of a queue that has not wrapped, within `int32` range -/

/-- A copy whose position and slot are below `2^31` and whose element lies
inside the block stores its element at that position. -/
theorem copyInside_of_fits (elemsize size k i : Nat) (h1 : k * elemsize + elemsize ≤ size)
    (h2 : size < 2147483648) (hk : k < 2147483648) (hi : i < 2147483648) :
    copyInside elemsize size (toInt32 (k : Int)) i = true := by
  have hk1 : toInt32 (k : Int) = (k : Int) := toInt32_of_lt _ (by omega) (by omega)
  have hi1 : toInt32 (i : Int) = (i : Int) := toInt32_of_lt _ (by omega) (by omega)
  have hp : toInt32 (((k * elemsize : Nat) : Int)) = ((k * elemsize : Nat) : Int) :=
    toInt32_of_lt _ (by omega) (by omega)
  have hc : ((k * elemsize + elemsize : Nat) : Int) ≤ (size : Int) := by exact_mod_cast h1
  rw [hk1]
  unfold copyInside
  rw [hi1]
  push_cast at hp hc
  simp only [decide_eq_true_eq]
  exact ⟨by omega, hp, hc, by omega⟩

/-- The block after copying the `n` consecutive slots from `r` on to the
positions from `k` on, when positions, slots and byte offsets stay below `2^31`
and inside the block: those positions hold the slots, the others are as
before, and the flag is as before. -/
theorem copyDst_run (buf : Nat → α) (elemsize size : Nat) :
    ∀ (n r k : Nat) (d : Nat → α) (f : Bool) (p : Nat),
      (k + n) * elemsize ≤ size → size < 2147483648 → k + n ≤ 2147483648 →
      r + n ≤ 2147483648 →
      copyDst buf elemsize size (List.range' r n) (toInt32 (k : Int)) d p =
          (if k ≤ p ∧ p < k + n then buf (r + (p - k)) else d p) ∧
        copyFault elemsize size (List.range' r n) (toInt32 (k : Int)) f = f := by
  intro n
  induction n with
  | zero =>
    intro r k d f p _ _ _ _
    have h : ¬ (k ≤ p ∧ p < k + 0) := by omega
    rw [if_neg h]
    exact ⟨rfl, rfl⟩
  | succ n ih =>
    intro r k d f p h1 h2 h3 h4
    have hle : (k + 1) * elemsize ≤ (k + (n + 1)) * elemsize :=
      Nat.mul_le_mul_right _ (by omega)
    have hmul : (k + 1) * elemsize = k * elemsize + elemsize := Nat.succ_mul k elemsize
    have hin : copyInside elemsize size (toInt32 (k : Int)) r = true :=
      copyInside_of_fits elemsize size k r (by omega) h2 (by omega) (by omega)
    have hk1 : toInt32 (k : Int) = (k : Int) := toInt32_of_lt _ (by omega) (by omega)
    have hr1 : toInt32 (r : Int) = (r : Int) := toInt32_of_lt _ (by omega) (by omega)
    have hk' : (k + 1 + n) * elemsize ≤ size := by
      have : k + 1 + n = k + (n + 1) := by omega
      rw [this]
      exact h1
    obtain ⟨ihd, ihf⟩ := ih (r + 1) (k + 1)
      (Function.update d k (buf r)) f p hk' h2 (by omega) (by omega)
    rw [List.range'_succ, copyDst, copyFault, hin, toInt32_natCast_succ]
    simp only [if_true, Bool.not_true, Bool.or_false]
    rw [hk1, hr1, Int.toNat_ofNat, Int.toNat_ofNat, ihd, ihf]
    refine ⟨?_, rfl⟩
    by_cases hc : k + 1 ≤ p ∧ p < k + 1 + n
    · have hc2 : k ≤ p ∧ p < k + (n + 1) := by omega
      have hidx : r + 1 + (p - (k + 1)) = r + (p - k) := by omega
      rw [if_pos hc, if_pos hc2, hidx]
    · rw [if_neg hc]
      by_cases hp : p = k
      · subst hp
        simp
      · have hc2 : ¬ (k ≤ p ∧ p < k + (n + 1)) := by omega
        rw [if_neg hc2, Function.update_noteq hp]

/-- When the buffered elements lie in the slots `recvx, ..., sendx - 1` without
wrapping (`recvx ≤ sendx ≤ dataqsiz`, `qcount = sendx - recvx`), at least
`minnum` of them are buffered, the array has fewer than `2^31` bytes and the
indices are at most `2^31`, `ChanRead` returns exactly these slots in order and
every copy stores its element inside the block. -/
theorem ChanRead_values_contiguous (mal : Nat → Nat → α) (t p : Nat) (c : Hchan α)
    (minnum : Nat) (ret : Option (Nat → α)) (len size : Nat)
    (hcap : 1 ≤ c.dataqsiz) (hmin : minnum ≤ c.qcount) (hrs : c.recvx ≤ c.sendx)
    (hs : c.sendx ≤ c.dataqsiz) (hq : c.qcount = c.sendx - c.recvx)
    (hfit : c.elemsize * c.qcount < 2147483648) (hsx : c.sendx ≤ 2147483648) :
    (ChanRead mal t p c minnum ret len size).values =
        some ((List.range c.qcount).map fun k => chanbuf c (c.recvx + k)) ∧
      (ChanRead mal t p c minnum ret len size).fault = false := by
  rw [ChanRead_drain mal t p c minnum ret len size hmin hcap]
  have hslots : copySlots c = List.range' c.recvx c.qcount := by
    have hw : ¬ c.sendx < c.recvx := by omega
    have hmn : min c.sendx c.dataqsiz = c.sendx := by omega
    simp [copySlots, hw, hmn, hq]
  have hsize : (c.elemsize * c.qcount) % 2 ^ 32 = c.elemsize * c.qcount :=
    Nat.mod_eq_of_lt (by omega)
  have hz : (0 : Int) = toInt32 ((0 : Nat) : Int) := by decide
  have hrun := fun (d : Nat → α) (f : Bool) (k : Nat) =>
    copyDst_run c.buf c.elemsize (c.elemsize * c.qcount) c.qcount c.recvx 0 d f k
      (by rw [Nat.zero_add, Nat.mul_comm]) hfit (by omega) (by omega)
  simp only [Frame.values, Option.map_some', hslots, hsize]
  rw [hz]
  refine ⟨?_, (hrun (mal (c.elemsize * c.qcount)) false 0).2⟩
  congr 1
  apply List.map_congr_left
  intro k hk
  have hk2 : k < c.qcount := List.mem_range.1 hk
  rw [(hrun _ false k).1]
  have h : 0 ≤ k ∧ k < 0 + c.qcount := by omega
  rw [if_pos h]
  rfl

/-- The round trip on a channel of capacity at least 4 whose elements have
fewer than `2^16` bytes, as `uint16 elemsize` makes them: after sending `e1`,
`e2`, `e3` into the empty channel, `ChanRead` with `minnum = 3` returns
`[e1, e2, e3]`. -/
theorem ChanRead_roundtrip_capacity_ge_four (mal : Nat → Nat → α) (t p : Nat)
    (cap elemsize : Nat) (init e1 e2 e3 : α) (ret : Option (Nat → α)) (len size : Nat)
    (hcap : 4 ≤ cap) (helem : elemsize < 65536) :
    (ChanRead mal t p (send (send (send (emptyChan cap elemsize init) e1) e2) e3) 3
      ret len size).values = some [e1, e2, e3] := by
  have m1 : (0 + 1) % cap = 1 := Nat.mod_eq_of_lt (by omega)
  have m2 : (1 + 1) % cap = 2 := Nat.mod_eq_of_lt (by omega)
  have m3 : (2 + 1) % cap = 3 := Nat.mod_eq_of_lt (by omega)
  have hsx : (send (send (send (emptyChan cap elemsize init) e1) e2) e3).sendx = 3 := by
    simp only [send, emptyChan, m1, m2, m3]
  rw [(ChanRead_values_contiguous mal t p _ 3 ret len size
    (by simp only [send, emptyChan]; omega)
    (by simp only [send, emptyChan]; omega)
    (by simp only [send, emptyChan]; omega)
    (by rw [hsx]; simp only [send, emptyChan]; omega)
    (by rw [hsx]; simp only [send, emptyChan])
    (by simp only [send, emptyChan]; omega)
    (by rw [hsx]; omega)).1]
  simp [send, emptyChan, chanbuf, m1, m2, List.range_succ, Function.update]

/-! ## Zero capacity: what does hold -/

/-- On a channel of capacity zero `ChanRead` makes no element copy and changes
no field of the channel besides releasing the lock, whatever `minnum` is. -/
theorem ChanRead_unbuffered_frame (mal : Nat → Nat → α) (t p : Nat) (c : Hchan α)
    (minnum : Nat) (ret : Option (Nat → α)) (len size : Nat) (h0 : c.dataqsiz < 1) :
    copies (ChanRead mal t p c minnum ret len size).trace = [] ∧
      (ChanRead mal t p c minnum ret len size).c = { c with lock := false } := by
  by_cases h : c.qcount < minnum
  · rw [ChanRead_insufficient mal t p c minnum ret len size h]
    exact ⟨rfl, rfl⟩
  · rw [ChanRead_unbuffered mal t p c minnum ret len size (by omega) h0]
    exact ⟨rfl, rfl⟩

/-! ## The copy calls of the drain -/

/-- The copy calls of the drain path, for every channel: copy number `k` (from
0) reads the slot `i` that `copySlots` lists at place `k`, its destination is
the byte offset `int32 (int32 k * elemsize)` and its source index is
`int32 i`. -/
theorem ChanRead_drain_copies (mal : Nat → Nat → α) (t p : Nat) (c : Hchan α)
    (minnum : Nat) (ret : Option (Nat → α)) (len size : Nat) (h : minnum ≤ c.qcount)
    (h0 : 1 ≤ c.dataqsiz) :
    copies (ChanRead mal t p c minnum ret len size).trace =
      (copySlots c).enum.map fun x =>
        (toInt32 (toInt32 (x.1 : Int) * c.elemsize), toInt32 (x.2 : Int)) := by
  rw [ChanRead_drain mal t p c minnum ret len size h h0]
  have h1 : copies (drainPrologue t p c minnum) = [] := rfl
  have h2 : copies [Event.unlock] = [] := rfl
  have hz : (0 : Int) = toInt32 ((0 : Nat) : Int) := by decide
  rw [hz]
  simp only [copies_append, copies_copyEvents, h1, h2, List.nil_append,
    List.append_nil, List.enum]

/-- The number of slots the copy phase reads. -/
theorem copySlots_length (c : Hchan α) :
    (copySlots c).length =
      (min c.sendx c.dataqsiz - c.recvx) + (if c.sendx < c.recvx then c.sendx else 0) := by
  unfold copySlots
  by_cases h : c.sendx < c.recvx
  · simp [h]
  · simp [h]

/-- When the product `elemsize * qcount` fits in 32 bits, the size requested
and reported by `ChanRead` is the exact product. -/
theorem ChanRead_size_exact (mal : Nat → Nat → α) (t p : Nat) (c : Hchan α)
    (minnum : Nat) (ret : Option (Nat → α)) (len size : Nat) (h : minnum ≤ c.qcount)
    (hfit : c.elemsize * c.qcount < 2 ^ 32) :
    (ChanRead mal t p c minnum ret len size).size = c.elemsize * c.qcount ∧
      allocations (ChanRead mal t p c minnum ret len size).trace
        = [c.elemsize * c.qcount] := by
  have hm : c.elemsize * c.qcount % 2 ^ 32 = c.elemsize * c.qcount :=
    Nat.mod_eq_of_lt hfit
  by_cases h0 : c.dataqsiz < 1
  · rw [ChanRead_unbuffered mal t p c minnum ret len size h h0]
    simp only [allocations, hm, and_self]
  · rw [ChanRead_drain mal t p c minnum ret len size h (by omega)]
    have hce := allocations_copyEvents c.elemsize
    have ha : allocations (drainPrologue t p c minnum)
        = [c.elemsize * c.qcount % 2 ^ 32] := rfl
    have hu : allocations [Event.unlock] = [] := rfl
    simp only [allocations_append, ha, hu, hce, hm, List.append_nil, and_self]

/-- The threshold `minnum` only decides admission.  Two calls of `ChanRead` on
the same channel with thresholds that are both met return the same pointer,
length, size and array, make the same copies and leave the same channel; the
reported length is the whole count. -/
theorem ChanRead_threshold_only (mal : Nat → Nat → α) (t p : Nat) (c : Hchan α)
    (m1 m2 : Nat) (ret : Option (Nat → α)) (len size : Nat)
    (h1 : m1 ≤ c.qcount) (h2 : m2 ≤ c.qcount) :
    (ChanRead mal t p c m1 ret len size).ret = (ChanRead mal t p c m2 ret len size).ret ∧
      (ChanRead mal t p c m1 ret len size).len = (ChanRead mal t p c m2 ret len size).len ∧
      (ChanRead mal t p c m1 ret len size).size
        = (ChanRead mal t p c m2 ret len size).size ∧
      (ChanRead mal t p c m1 ret len size).values
        = (ChanRead mal t p c m2 ret len size).values ∧
      copies (ChanRead mal t p c m1 ret len size).trace
        = copies (ChanRead mal t p c m2 ret len size).trace ∧
      (ChanRead mal t p c m1 ret len size).c = (ChanRead mal t p c m2 ret len size).c ∧
      (ChanRead mal t p c m1 ret len size).len = c.qcount := by
  by_cases h0 : c.dataqsiz < 1
  · rw [ChanRead_unbuffered mal t p c m1 ret len size h1 h0,
      ChanRead_unbuffered mal t p c m2 ret len size h2 h0]
    exact ⟨rfl, rfl, rfl, rfl, rfl, rfl, rfl⟩
  · rw [ChanRead_drain mal t p c m1 ret len size h1 (by omega),
      ChanRead_drain mal t p c m2 ret len size h2 (by omega)]
    refine ⟨rfl, rfl, rfl, rfl, ?_, rfl, rfl⟩
    simp only [copies_append, drainPrologue, copies]

/-! ## Copies that leave the block -/

theorem copyFault_of_true (elemsize size : Nat) :
    ∀ (slots : List Nat) (j : Int), copyFault elemsize size slots j true = true := by
  intro slots
  induction slots with
  | nil => intro j; rfl
  | cons i is ih =>
    intro j
    rw [copyFault, Bool.true_or]
    exact ih _

/-- The flag is set as soon as one copy of the run does not store its element
inside the block. -/
theorem copyFault_of_outside (elemsize size : Nat) :
    ∀ (slots : List Nat) (k0 : Nat) (f : Bool) (k i : Nat), slots[k]? = some i →
      copyInside elemsize size (toInt32 ((k0 + k : Nat) : Int)) i = false →
      copyFault elemsize size slots (toInt32 (k0 : Int)) f = true := by
  intro slots
  induction slots with
  | nil =>
    intro k0 f k i h
    simp at h
  | cons a as ih =>
    intro k0 f k i h hout
    rw [copyFault, toInt32_natCast_succ]
    cases k with
    | zero =>
      simp only [List.getElem?_cons_zero, Option.some.injEq] at h
      subst h
      rw [Nat.add_zero] at hout
      rw [hout]
      simp only [Bool.not_false, Bool.or_true]
      exact copyFault_of_true elemsize size as _
    | succ k =>
      simp only [List.getElem?_cons_succ] at h
      have hk : k0 + (k + 1) = k0 + 1 + k := by omega
      rw [hk] at hout
      exact ih (k0 + 1) _ k i h hout

/-- A position of the block keeps its content when no copy of the run that
stores its element inside the block has that position. -/
theorem copyDst_untouched (buf : Nat → α) (elemsize size : Nat) (p : Nat) :
    ∀ (slots : List Nat) (k0 : Nat) (d : Nat → α),
      (∀ k i, slots[k]? = some i →
        copyInside elemsize size (toInt32 ((k0 + k : Nat) : Int)) i = true →
        (toInt32 ((k0 + k : Nat) : Int)).toNat ≠ p) →
      copyDst buf elemsize size slots (toInt32 (k0 : Int)) d p = d p := by
  intro slots
  induction slots with
  | nil =>
    intro k0 d _
    rfl
  | cons a as ih =>
    intro k0 d h
    rw [copyDst, toInt32_natCast_succ]
    have ih1 := fun d1 => ih (k0 + 1) d1 (by
      intro k i hk hin
      have hk2 : k0 + 1 + k = k0 + (k + 1) := by omega
      rw [hk2] at hin ⊢
      exact h (k + 1) i (by simpa using hk) hin)
    rw [ih1]
    by_cases hin : copyInside elemsize size (toInt32 (k0 : Int)) a = true
    · rw [if_pos hin]
      have hne := h 0 a (by simp) (by simpa using hin)
      rw [Nat.add_zero] at hne
      exact Function.update_noteq (Ne.symm hne) _ _
    · rw [if_neg hin]

/-- The flag after the drain path: the flag of the run of copies over
`copySlots`, counted from 0, into the block of `size` bytes. -/
theorem ChanRead_drain_fault (mal : Nat → Nat → α) (t p : Nat) (c : Hchan α)
    (minnum : Nat) (ret : Option (Nat → α)) (len size : Nat) (h : minnum ≤ c.qcount)
    (h0 : 1 ≤ c.dataqsiz) :
    (ChanRead mal t p c minnum ret len size).fault =
      copyFault c.elemsize ((c.elemsize * c.qcount) % 2 ^ 32) (copySlots c)
        (toInt32 ((0 : Nat) : Int)) false := by
  rw [ChanRead_drain mal t p c minnum ret len size h h0]
  rfl

/-- The element at position `k < qcount` of the array the drain path returns:
the content of the block after the run of copies over `copySlots`. -/
theorem ChanRead_drain_value (mal : Nat → Nat → α) (t p : Nat) (c : Hchan α)
    (minnum : Nat) (ret : Option (Nat → α)) (len size : Nat) (h : minnum ≤ c.qcount)
    (h0 : 1 ≤ c.dataqsiz) (k : Nat) (hk : k < c.qcount) :
    ((ChanRead mal t p c minnum ret len size).values.bind fun l => l[k]?) =
      some (copyDst c.buf c.elemsize ((c.elemsize * c.qcount) % 2 ^ 32) (copySlots c)
        (toInt32 ((0 : Nat) : Int)) (mal ((c.elemsize * c.qcount) % 2 ^ 32)) k) := by
  rw [ChanRead_drain mal t p c minnum ret len size h h0]
  simp only [Frame.values, Option.map_some', Option.some_bind, List.getElem?_map,
    List.getElem?_range hk]
  rfl

/-! ## What holds within `int32` range -/

/-- Every slot the copy phase reads lies below `sendx`, and below `dataqsiz`
when `sendx` does. -/
theorem mem_copySlots (c : Hchan α) (i : Nat) (hi : i ∈ copySlots c) :
    i < c.sendx ∧ (c.sendx ≤ c.dataqsiz → i < c.dataqsiz) := by
  unfold copySlots at hi
  rcases List.mem_append.1 hi with h | h
  · obtain ⟨k, hk, rfl⟩ := List.mem_range'.1 h
    omega
  · by_cases hw : c.sendx < c.recvx
    · rw [if_pos hw] at h
      obtain ⟨k, hk, rfl⟩ := List.mem_range'.1 h
      omega
    · rw [if_neg hw] at h
      simp at h

/-- Under the queue invariant, when the array has fewer than `2^31` bytes and
the capacity is at most `2^31`, every copy of `ChanRead` stores its element
inside the block at the position of its number and reads a slot below
`dataqsiz`, and there are at most `qcount` copies. -/
theorem ChanRead_copies_inside (mal : Nat → Nat → α) (t p : Nat) (c : Hchan α)
    (minnum : Nat) (ret : Option (Nat → α)) (len size : Nat)
    (hcap : 1 ≤ c.dataqsiz) (hs : c.sendx < c.dataqsiz) (hr : c.recvx < c.dataqsiz)
    (hq : c.qcount = (c.sendx + c.dataqsiz - c.recvx) % c.dataqsiz ∨
      c.qcount = c.dataqsiz)
    (hmin : minnum ≤ c.qcount)
    (hfit : c.elemsize * c.qcount < 2147483648) (hcap31 : c.dataqsiz ≤ 2147483648) :
    (ChanRead mal t p c minnum ret len size).fault = false ∧
      (copies (ChanRead mal t p c minnum ret len size).trace).length ≤ c.qcount ∧
      ∀ i ∈ copySlots c, i < c.dataqsiz := by
  have hlen : (copySlots c).length ≤ c.qcount := by
    rw [copySlots_length]
    rcases hq with hq | hq
    · by_cases hw : c.sendx < c.recvx
      · rw [if_pos hw]
        have h1 : (c.sendx + c.dataqsiz - c.recvx) % c.dataqsiz
            = c.sendx + c.dataqsiz - c.recvx := Nat.mod_eq_of_lt (by omega)
        omega
      · rw [if_neg hw]
        have h2 : c.sendx + c.dataqsiz - c.recvx = (c.sendx - c.recvx) + c.dataqsiz := by
          omega
        have h1 : (c.sendx + c.dataqsiz - c.recvx) % c.dataqsiz = c.sendx - c.recvx := by
          rw [h2, Nat.add_mod_right]
          exact Nat.mod_eq_of_lt (by omega)
        omega
    · by_cases hw : c.sendx < c.recvx
      · rw [if_pos hw]
        omega
      · rw [if_neg hw]
        omega
  have hsize : (c.elemsize * c.qcount) % 2 ^ 32 = c.elemsize * c.qcount :=
    Nat.mod_eq_of_lt (by omega)
  have hrun : ∃ r n, copySlots c = List.range' r n ∧ r + n ≤ c.dataqsiz := by
    by_cases hw : c.sendx < c.recvx
    · refine ⟨0, c.sendx, ?_, by omega⟩
      have h0 : min c.sendx c.dataqsiz - c.recvx = 0 := by omega
      simp [copySlots, hw, h0]
    · refine ⟨c.recvx, c.sendx - c.recvx, ?_, by omega⟩
      have h0 : min c.sendx c.dataqsiz = c.sendx := by omega
      simp [copySlots, hw, h0]
  refine ⟨?_, ?_, fun i hi => (mem_copySlots c i hi).2 (by omega)⟩
  · obtain ⟨r, n, hslots, hrn⟩ := hrun
    have hn : n ≤ c.qcount := by
      have := hlen
      rw [hslots, List.length_range'] at this
      exact this
    rw [ChanRead_drain_fault mal t p c minnum ret len size hmin hcap, hslots, hsize]
    have hmul : (0 + n) * c.elemsize ≤ c.elemsize * c.qcount := by
      rw [Nat.zero_add, Nat.mul_comm c.elemsize c.qcount]
      exact Nat.mul_le_mul_right _ hn
    have hq31 : n ≤ 2147483648 := by omega
    exact (copyDst_run c.buf c.elemsize (c.elemsize * c.qcount) n r 0
      (mal (c.elemsize * c.qcount)) false 0 hmul hfit (by omega) (by omega)).2
  · rw [ChanRead_drain_copies mal t p c minnum ret len size hmin hcap, List.length_map,
      List.enum_length]
    exact hlen

/-! ## The claims -/

/-- C1, evaluated where it fails: the channel of capacity 3 holding 3 elements
with `recvx = sendx = 1` satisfies the queue invariant and its logical content
is `[20, 30, 10]`, yet `ChanRead` with `minnum = 1` makes no copy at all and
returns the 3 untouched elements `[0, 0, 0]` of the fresh block. -/
theorem ChanRead_full_buffer_not_copied :
    QueueInv (sampleChan 3 3 1 1 [10, 20, 30]) ∧
      1 ≤ (sampleChan 3 3 1 1 [10, 20, 30]).qcount ∧
      logicalContent (sampleChan 3 3 1 1 [10, 20, 30]) = [20, 30, 10] ∧
      copies (ChanRead zeroedMal 7 4096 (sampleChan 3 3 1 1 [10, 20, 30]) 1 none 0 0).trace
        = [] ∧
      (ChanRead zeroedMal 7 4096 (sampleChan 3 3 1 1 [10, 20, 30]) 1 none 0 0).values
        = some [0, 0, 0] := by
  decide

/-- C2, evaluated at the wraparound scenario of the spec: capacity 4, 8-byte
elements, `recvx = 2`, `sendx = 1`, `qcount = 3`, `minnum = 2`.  The first loop
makes no copy since `recvx < sendx` fails, the second loop copies slot 0 to
position 0, and `ChanRead` returns `[slot0, 0, 0]` instead of
`[slot2, slot3, slot0]`; the indices and the count are reset to 0. -/
theorem ChanRead_wraparound_scenario :
    logicalContent (sampleChan 3 4 1 2 [10, 20, 30, 40]) = [30, 40, 10] ∧
      copies (ChanRead zeroedMal 7 4096 (sampleChan 3 4 1 2 [10, 20, 30, 40]) 2 none 0 0).trace
        = [(0, 0)] ∧
      (ChanRead zeroedMal 7 4096 (sampleChan 3 4 1 2 [10, 20, 30, 40]) 2 none 0 0).values
        = some [10, 0, 0] ∧
      (ChanRead zeroedMal 7 4096 (sampleChan 3 4 1 2 [10, 20, 30, 40]) 2 none 0 0).c.qcount
        = 0 ∧
      (ChanRead zeroedMal 7 4096 (sampleChan 3 4 1 2 [10, 20, 30, 40]) 2 none 0 0).c.sendx
        = 0 ∧
      (ChanRead zeroedMal 7 4096 (sampleChan 3 4 1 2 [10, 20, 30, 40]) 2 none 0 0).c.recvx
        = 0 := by
  decide

/-- C3, evaluated at capacity exactly 3: sending 1, 2, 3 into the empty channel
leaves `sendx = recvx = 0` with `qcount = 3`, and `ChanRead` with `minnum = 3`
then returns `[0, 0, 0]`, not `[1, 2, 3]`. -/
theorem ChanRead_roundtrip_capacity_three :
    (send (send (send (emptyChan 3 8 0) 1) 2) 3).sendx = 0 ∧
      (send (send (send (emptyChan 3 8 0) 1) 2) 3).recvx = 0 ∧
      (send (send (send (emptyChan 3 8 0) 1) 2) 3).qcount = 3 ∧
      logicalContent (send (send (send (emptyChan 3 8 0) 1) 2) 3) = [1, 2, 3] ∧
      (ChanRead zeroedMal 7 4096 (send (send (send (emptyChan 3 8 0) 1) 2) 3) 3
        none 0 0).values = some [0, 0, 0] := by
  decide

/-- C4: on a channel of capacity at least 1 with at least `minnum` buffered
elements, whatever the indices are, `ChanRead` leaves `qcount = 0`, `sendx = 0`
and `recvx = 0`. -/
theorem ChanRead_empties_queue (mal : Nat → Nat → α) (t p : Nat) (c : Hchan α)
    (minnum : Nat) (ret : Option (Nat → α)) (len size : Nat)
    (hcap : 1 ≤ c.dataqsiz) (hmin : minnum ≤ c.qcount) :
    (ChanRead mal t p c minnum ret len size).c.qcount = 0 ∧
      (ChanRead mal t p c minnum ret len size).c.sendx = 0 ∧
      (ChanRead mal t p c minnum ret len size).c.recvx = 0 := by
  rw [ChanRead_drain mal t p c minnum ret len size hmin hcap]
  exact ⟨rfl, rfl, rfl⟩

/-- C4 at a concrete channel whose indices lie outside the buffer: capacity 5,
`sendx = 9`, `recvx = 7`, 2 elements buffered, `minnum = 1`. -/
theorem ChanRead_empties_queue_witness :
    (1 ≤ (sampleChan 2 5 9 7 [1, 2, 3, 4, 5]).dataqsiz ∧
      1 ≤ (sampleChan 2 5 9 7 [1, 2, 3, 4, 5]).qcount) ∧
      (ChanRead zeroedMal 7 4096 (sampleChan 2 5 9 7 [1, 2, 3, 4, 5]) 1 none 0 0).c.qcount
        = 0 ∧
      (ChanRead zeroedMal 7 4096 (sampleChan 2 5 9 7 [1, 2, 3, 4, 5]) 1 none 0 0).c.sendx
        = 0 ∧
      (ChanRead zeroedMal 7 4096 (sampleChan 2 5 9 7 [1, 2, 3, 4, 5]) 1 none 0 0).c.recvx
        = 0 :=
  ⟨by decide,
    ChanRead_empties_queue zeroedMal 7 4096 (sampleChan 2 5 9 7 [1, 2, 3, 4, 5]) 1 none 0 0
      (by decide) (by decide)⟩

/-- C5: when fewer than `minnum` elements are buffered, each of `n` consecutive
calls of `ChanRead` returns the `nil` pointer, requests no allocation, makes no
copy, and leaves the channel as it was, the lock free: `qcount`, `sendx`,
`recvx` and every other field keep their values. -/
theorem ChanRead_insufficient_repeated (mal : Nat → Nat → α) (t p : Nat) (c : Hchan α)
    (minnum : Nat) (ret : Option (Nat → α)) (len size : Nat) (n : Nat)
    (h : c.qcount < minnum) :
    (ChanReadRepeat mal t p minnum ret len size n c).length = n ∧
      ∀ f ∈ ChanReadRepeat mal t p minnum ret len size n c,
        f.ret = none ∧ f.values = none ∧ allocations f.trace = [] ∧
          copies f.trace = [] ∧ f.c = { c with lock := false } ∧
          f.c.qcount = c.qcount ∧ f.c.sendx = c.sendx ∧ f.c.recvx = c.recvx := by
  induction n generalizing c with
  | zero => simp [ChanReadRepeat]
  | succ n ih =>
    have hf := ChanRead_insufficient mal t p c minnum ret len size h
    have ih1 := ih (ChanRead mal t p c minnum ret len size).c (by rw [hf]; exact h)
    refine ⟨by simp [ChanReadRepeat, ih1.1], ?_⟩
    intro f hmem
    simp only [ChanReadRepeat, List.mem_cons] at hmem
    rcases hmem with rfl | hmem
    · rw [hf]
      exact ⟨rfl, rfl, rfl, rfl, rfl, rfl, rfl, rfl⟩
    · have h2 := ih1.2 f hmem
      rw [hf] at h2
      obtain ⟨a1, a2, a3, a4, a5, a6, a7, a8⟩ := h2
      exact ⟨a1, a2, a3, a4, a5, a6, a7, a8⟩

/-- C5 at a concrete channel: 2 elements buffered, `minnum = 3`, 5 calls. -/
theorem ChanRead_insufficient_repeated_witness :
    (sampleChan 2 4 2 0 [10, 20, 0, 0]).qcount < 3 ∧
      ((ChanReadRepeat zeroedMal 7 4096 3 none 0 0 5
          (sampleChan 2 4 2 0 [10, 20, 0, 0])).length = 5 ∧
        ∀ f ∈ ChanReadRepeat zeroedMal 7 4096 3 none 0 0 5
            (sampleChan 2 4 2 0 [10, 20, 0, 0]),
          f.ret = none ∧ f.values = none ∧ allocations f.trace = [] ∧
            copies f.trace = [] ∧
            f.c = { sampleChan 2 4 2 0 [10, 20, 0, 0] with lock := false } ∧
            f.c.qcount = (sampleChan 2 4 2 0 [10, 20, 0, 0]).qcount ∧
            f.c.sendx = (sampleChan 2 4 2 0 [10, 20, 0, 0]).sendx ∧
            f.c.recvx = (sampleChan 2 4 2 0 [10, 20, 0, 0]).recvx) :=
  ⟨by decide,
    ChanRead_insufficient_repeated zeroedMal 7 4096 (sampleChan 2 4 2 0 [10, 20, 0, 0]) 3
      none 0 0 5 (by decide)⟩

/-- C6, evaluated where it fails: on the unbuffered channel with `qcount = 0`
and `minnum = 0` the admission check passes, a block of 0 bytes is requested,
and the early return at line 74 leaves that block in `ret`; the result is not
the `nil` pointer that the insufficient-data path (here `minnum = 1`) returns.
No copy is made and `qcount`, `sendx`, `recvx` keep their values. -/
theorem ChanRead_unbuffered_returns_block :
    (ChanRead zeroedMal 7 4096 (sampleChan 0 0 0 0 []) 0 none 0 0).ret.isSome = true ∧
      allocations (ChanRead zeroedMal 7 4096 (sampleChan 0 0 0 0 []) 0 none 0 0).trace
        = [0] ∧
      (ChanRead zeroedMal 7 4096 (sampleChan 0 0 0 0 []) 0 none 0 0).values = some [] ∧
      (ChanRead zeroedMal 7 4096 (sampleChan 0 0 0 0 []) 1 none 0 0).ret.isSome = false ∧
      copies (ChanRead zeroedMal 7 4096 (sampleChan 0 0 0 0 []) 0 none 0 0).trace = [] ∧
      (ChanRead zeroedMal 7 4096 (sampleChan 0 0 0 0 []) 0 none 0 0).c.qcount = 0 ∧
      (ChanRead zeroedMal 7 4096 (sampleChan 0 0 0 0 []) 0 none 0 0).c.sendx = 0 ∧
      (ChanRead zeroedMal 7 4096 (sampleChan 0 0 0 0 []) 0 none 0 0).c.recvx = 0 := by
  decide

/-- C7: `ChanDebug` leaves `qcount`, `sendx`, `recvx`, `closed`, `dataqsiz`,
`elemsize` and the buffer contents as they were, for every channel; the only
field it can change is the lock. -/
theorem ChanDebug_mutates_no_field (t p : Nat) (c : Hchan α) :
    (ChanDebug t p c).c.qcount = c.qcount ∧
      (ChanDebug t p c).c.sendx = c.sendx ∧
      (ChanDebug t p c).c.recvx = c.recvx ∧
      (ChanDebug t p c).c.closed = c.closed ∧
      (ChanDebug t p c).c.dataqsiz = c.dataqsiz ∧
      (ChanDebug t p c).c.elemsize = c.elemsize ∧
      (ChanDebug t p c).c.buf = c.buf ∧
      (ChanDebug t p c).c = { c with lock := (ChanDebug t p c).c.lock } := by
  by_cases h : c.dataqsiz < 1
  · simp [ChanDebug, runtime_lock, h]
  · simp [ChanDebug, runtime_lock, runtime_unlock, h]

/-- C8, evaluated where it fails: on an unbuffered channel `ChanDebug` returns
at line 45 without calling `runtime·unlock`, so the lock is still held after
the call and the trace holds no release; on a buffered channel the lock is
released. -/
theorem ChanDebug_unbuffered_keeps_lock :
    (ChanDebug 7 4096 (sampleChan 0 0 0 0 [])).c.lock = true ∧
      (ChanDebug 7 4096 (sampleChan 0 0 0 0 [])).trace.count Event.lock = 1 ∧
      (ChanDebug 7 4096 (sampleChan 0 0 0 0 [])).trace.count Event.unlock = 0 ∧
      (ChanDebug 7 4096 (sampleChan 1 2 1 0 [10, 0])).c.lock = false := by
  decide

/-- C9: on each of its exit paths `ChanRead` acquires the lock as its first
call and releases it as its last, with no acquisition or release in between,
and the lock is free after the call. -/
theorem ChanRead_lock_discipline (mal : Nat → Nat → α) (t p : Nat) (c : Hchan α)
    (minnum : Nat) (ret : Option (Nat → α)) (len size : Nat) :
    (∃ mid, (ChanRead mal t p c minnum ret len size).trace
        = Event.lock :: (mid ++ [Event.unlock]) ∧
      ∀ e ∈ mid, e.isLockEvent = false) ∧
      (ChanRead mal t p c minnum ret len size).c.lock = false := by
  by_cases h : c.qcount < minnum
  · rw [ChanRead_insufficient mal t p c minnum ret len size h]
    refine ⟨⟨[Event.printf "%d <= %d?\n" [minnum, c.qcount]], rfl, ?_⟩, rfl⟩
    intro e he
    simp only [List.mem_singleton] at he
    subst he
    rfl
  · by_cases h0 : c.dataqsiz < 1
    · rw [ChanRead_unbuffered mal t p c minnum ret len size (by omega) h0]
      refine ⟨⟨[Event.printf "%d <= %d?\n" [minnum, c.qcount],
          Event.mal ((c.elemsize * c.qcount) % 2 ^ 32),
          Event.printf "ChanPtr: %p, %x\n" [p, t],
          Event.printf "QSize:%d, Elem:%d\n" [c.dataqsiz, c.elemsize],
          Event.printf "Value count: %d\n" [c.qcount],
          Event.printf "Cannot peek on an unbuffered channel\n" []], rfl, ?_⟩, rfl⟩
      intro e he
      simp only [List.mem_cons, List.mem_singleton, List.not_mem_nil, or_false] at he
      rcases he with rfl | rfl | rfl | rfl | rfl | rfl <;> rfl
    · rw [ChanRead_drain mal t p c minnum ret len size (by omega) (by omega)]
      refine ⟨⟨(drainPrologue t p c minnum).tail ++
          copyEvents c.elemsize 0 (copySlots c), ?_, ?_⟩, rfl⟩
      · simp [drainPrologue]
      · intro e he
        rcases List.mem_append.1 he with he | he
        · simp only [drainPrologue, List.tail_cons, List.mem_cons, List.mem_singleton,
            List.not_mem_nil, or_false] at he
          rcases he with rfl | rfl | rfl | rfl | rfl | rfl <;> rfl
        · exact copyEvents_not_lock c.elemsize (copySlots c) 0 e he

/-- C11, evaluated where it fails: on the channel of capacity 4 holding the 3
elements of slots 0, 1, 2, `ChanRead` with `minnum = 2` returns the array
`[10, 20, 30]` and reports `len = 3`, which is more than `minnum`. -/
theorem ChanRead_len_exceeds_minnum :
    (ChanRead zeroedMal 7 4096 (sampleChan 3 4 3 0 [10, 20, 30, 0]) 2 none 0 0).len = 3 ∧
      ¬ (ChanRead zeroedMal 7 4096 (sampleChan 3 4 3 0 [10, 20, 30, 0]) 2 none 0 0).len
        ≤ 2 ∧
      (ChanRead zeroedMal 7 4096 (sampleChan 3 4 3 0 [10, 20, 30, 0]) 2 none 0 0).values
        = some [10, 20, 30] := by
  decide

/-- C12: the structural invariant is preserved by `ChanDebug` and, on every
exit path, by `ChanRead`. -/
theorem StructInv_preserved (mal : Nat → Nat → α) (t p : Nat) (c : Hchan α)
    (minnum : Nat) (ret : Option (Nat → α)) (len size : Nat) (h : StructInv c) :
    StructInv (ChanDebug t p c).c ∧
      StructInv (ChanRead mal t p c minnum ret len size).c := by
  constructor
  · by_cases h0 : c.dataqsiz < 1
    · simpa [ChanDebug, runtime_lock, h0, StructInv] using h
    · simpa [ChanDebug, runtime_lock, runtime_unlock, h0, StructInv] using h
  · by_cases hq : c.qcount < minnum
    · rw [ChanRead_insufficient mal t p c minnum ret len size hq]
      exact h
    · by_cases h0 : c.dataqsiz < 1
      · rw [ChanRead_unbuffered mal t p c minnum ret len size (by omega) h0]
        exact h
      · rw [ChanRead_drain mal t p c minnum ret len size (by omega) (by omega)]
        refine ⟨Nat.zero_le _, fun h1 => ⟨h1, h1⟩, fun _ => ⟨rfl, rfl⟩⟩

/-- C12 at a concrete channel: capacity 4, 3 elements buffered in slots 2, 3,
0, `minnum = 2`. -/
theorem StructInv_preserved_witness :
    StructInv (sampleChan 3 4 1 2 [10, 20, 30, 40]) ∧
      StructInv (ChanDebug 7 4096 (sampleChan 3 4 1 2 [10, 20, 30, 40])).c ∧
      StructInv
        (ChanRead zeroedMal 7 4096 (sampleChan 3 4 1 2 [10, 20, 30, 40]) 2 none 0 0).c :=
  ⟨by decide,
    StructInv_preserved zeroedMal 7 4096 (sampleChan 3 4 1 2 [10, 20, 30, 40]) 2 none 0 0
      (by decide)⟩

/-- C15, evaluated where it fails: with 8-byte elements and `2^29` buffered
elements the exact product is `2^32`, and `ChanRead` requests and reports a
size of 0 bytes for an array of `2^29` elements. -/
theorem ChanRead_size_wraps :
    (sampleChan 536870912 536870913 536870912 0 []).elemsize *
        (sampleChan 536870912 536870913 536870912 0 []).qcount = 4294967296 ∧
      (ChanRead zeroedMal 7 4096 (sampleChan 536870912 536870913 536870912 0 []) 1
        none 0 0).size = 0 ∧
      (ChanRead zeroedMal 7 4096 (sampleChan 536870912 536870913 536870912 0 []) 1
        none 0 0).len = 536870912 := by
  decide

/-- C16: the report of `ChanDebug` starts with the type tag and the channel
address, then the capacity and the element size, then the count; on a channel
of capacity below 1 it ends with the notice and holds no index, otherwise it
ends with `recvx`, `sendx`, `qcount` and `dataqsiz` as the channel holds
them. -/
theorem ChanDebug_report (t p : Nat) (c : Hchan α) :
    printed (ChanDebug t p c).trace =
      [("Type: %x, ChanPtr: %p\n", [t, p]),
       ("QSize:%d, Elem:%d\n", [c.dataqsiz, c.elemsize]),
       ("Value count: %d\n", [c.qcount])] ++
      (if c.dataqsiz < 1 then [("Cannot peek on an unbuffered channel\n", [])]
       else [("Peeking at [recv:%d send:%d %d/%d]\n",
          [c.recvx, c.sendx, c.qcount, c.dataqsiz])]) := by
  by_cases h0 : c.dataqsiz < 1
  · simp [ChanDebug, runtime_lock, h0, printed]
  · simp [ChanDebug, runtime_lock, runtime_unlock, h0, printed]

/-- C18: on a channel of capacity at least 1 whose indices are equal, a full
buffer included, with at least `minnum` buffered elements, `ChanRead` makes no
element copy, yet reports `len = qcount` and resets `qcount`, `sendx` and
`recvx` to 0: the block it returns is the fresh block as `runtime·mal`
delivered it, so none of the buffered elements is written into the array. -/
theorem ChanRead_equal_indices (mal : Nat → Nat → α) (t p : Nat) (c : Hchan α)
    (minnum : Nat) (ret : Option (Nat → α)) (len size : Nat)
    (hcap : 1 ≤ c.dataqsiz) (heq : c.recvx = c.sendx) (hmin : minnum ≤ c.qcount) :
    copies (ChanRead mal t p c minnum ret len size).trace = [] ∧
      (ChanRead mal t p c minnum ret len size).len = c.qcount ∧
      (ChanRead mal t p c minnum ret len size).c.qcount = 0 ∧
      (ChanRead mal t p c minnum ret len size).c.sendx = 0 ∧
      (ChanRead mal t p c minnum ret len size).c.recvx = 0 ∧
      (ChanRead mal t p c minnum ret len size).ret
        = some (mal ((c.elemsize * c.qcount) % 2 ^ 32)) ∧
      (ChanRead mal t p c minnum ret len size).values
        = some ((List.range c.qcount).map (mal ((c.elemsize * c.qcount) % 2 ^ 32))) := by
  have hslots : copySlots c = [] := by
    apply List.eq_nil_of_length_eq_zero
    rw [copySlots_length]
    have hw : ¬ c.sendx < c.recvx := by omega
    rw [if_neg hw]
    omega
  refine ⟨?_, ?_⟩
  · rw [ChanRead_drain_copies mal t p c minnum ret len size hmin hcap, hslots]
    rfl
  · rw [ChanRead_drain mal t p c minnum ret len size hmin hcap, hslots]
    exact ⟨rfl, rfl, rfl, rfl, rfl, rfl⟩

/-- C18 at a full buffer: capacity 2, 2 elements buffered, `recvx = sendx = 1`,
`minnum = 2`. -/
theorem ChanRead_equal_indices_witness :
    (1 ≤ (sampleChan 2 2 1 1 [21, 22]).dataqsiz ∧
      (sampleChan 2 2 1 1 [21, 22]).recvx = (sampleChan 2 2 1 1 [21, 22]).sendx ∧
      2 ≤ (sampleChan 2 2 1 1 [21, 22]).qcount ∧
      (sampleChan 2 2 1 1 [21, 22]).qcount = (sampleChan 2 2 1 1 [21, 22]).dataqsiz) ∧
      copies (ChanRead zeroedMal 7 4096 (sampleChan 2 2 1 1 [21, 22]) 2 none 0 0).trace
        = [] ∧
      (ChanRead zeroedMal 7 4096 (sampleChan 2 2 1 1 [21, 22]) 2 none 0 0).len = 2 ∧
      (ChanRead zeroedMal 7 4096 (sampleChan 2 2 1 1 [21, 22]) 2 none 0 0).c.qcount = 0 :=
  ⟨by decide,
    (ChanRead_equal_indices zeroedMal 7 4096 (sampleChan 2 2 1 1 [21, 22]) 2 none 0 0
      (by decide) (by decide) (by decide)).1,
    (ChanRead_equal_indices zeroedMal 7 4096 (sampleChan 2 2 1 1 [21, 22]) 2 none 0 0
      (by decide) (by decide) (by decide)).2.1,
    (ChanRead_equal_indices zeroedMal 7 4096 (sampleChan 2 2 1 1 [21, 22]) 2 none 0 0
      (by decide) (by decide) (by decide)).2.2.1⟩

/-- C20: on every exit path `ChanRead` leaves `dataqsiz`, `elemsize`,
`elemalign`, the element algorithm, `closed`, both wait queues and every buffer
slot as they were; the channel after the call is the channel before it with
new values of `qcount`, `sendx` and `recvx` at most, and the lock free. -/
theorem ChanRead_frame (mal : Nat → Nat → α) (t p : Nat) (c : Hchan α)
    (minnum : Nat) (ret : Option (Nat → α)) (len size : Nat) :
    (ChanRead mal t p c minnum ret len size).c.dataqsiz = c.dataqsiz ∧
      (ChanRead mal t p c minnum ret len size).c.elemsize = c.elemsize ∧
      (ChanRead mal t p c minnum ret len size).c.elemalign = c.elemalign ∧
      (ChanRead mal t p c minnum ret len size).c.elemalg = c.elemalg ∧
      (ChanRead mal t p c minnum ret len size).c.closed = c.closed ∧
      (ChanRead mal t p c minnum ret len size).c.recvq = c.recvq ∧
      (ChanRead mal t p c minnum ret len size).c.sendq = c.sendq ∧
      (∀ i, chanbuf (ChanRead mal t p c minnum ret len size).c i = chanbuf c i) ∧
      (ChanRead mal t p c minnum ret len size).c =
        { c with
          qcount := (ChanRead mal t p c minnum ret len size).c.qcount,
          sendx := (ChanRead mal t p c minnum ret len size).c.sendx,
          recvx := (ChanRead mal t p c minnum ret len size).c.recvx,
          lock := false } := by
  by_cases hq : c.qcount < minnum
  · rw [ChanRead_insufficient mal t p c minnum ret len size hq]
    exact ⟨rfl, rfl, rfl, rfl, rfl, rfl, rfl, fun _ => rfl, rfl⟩
  · by_cases h0 : c.dataqsiz < 1
    · rw [ChanRead_unbuffered mal t p c minnum ret len size (by omega) h0]
      exact ⟨rfl, rfl, rfl, rfl, rfl, rfl, rfl, fun _ => rfl, rfl⟩
    · rw [ChanRead_drain mal t p c minnum ret len size (by omega) (by omega)]
      exact ⟨rfl, rfl, rfl, rfl, rfl, rfl, rfl, fun _ => rfl, rfl⟩

/-! ## The claims that fail beyond `int32` and `uint32` range -/

/-- C10, evaluated where it fails: capacity 5, `recvx = 3`, `sendx = 1`, the 3
buffered elements `[40, 50, 10]` in slots 3, 4, 0.  With `minnum = 1` and with
`minnum = 3` the call returns the same array and leaves the same channel, but
the drain takes only part of the buffered elements: one copy is made, the
array is `[10, 0, 0]`, and the queue is emptied all the same. -/
theorem ChanRead_takes_part :
    (1 ≤ (sampleChan 3 5 1 3 [10, 20, 30, 40, 50]).qcount ∧
      3 ≤ (sampleChan 3 5 1 3 [10, 20, 30, 40, 50]).qcount) ∧
      logicalContent (sampleChan 3 5 1 3 [10, 20, 30, 40, 50]) = [40, 50, 10] ∧
      (ChanRead zeroedMal 7 4096 (sampleChan 3 5 1 3 [10, 20, 30, 40, 50]) 1
        none 0 0).values = some [10, 0, 0] ∧
      (ChanRead zeroedMal 7 4096 (sampleChan 3 5 1 3 [10, 20, 30, 40, 50]) 3
        none 0 0).values = some [10, 0, 0] ∧
      copies (ChanRead zeroedMal 7 4096 (sampleChan 3 5 1 3 [10, 20, 30, 40, 50]) 1
        none 0 0).trace = [(0, 0)] ∧
      (ChanRead zeroedMal 7 4096 (sampleChan 3 5 1 3 [10, 20, 30, 40, 50]) 1
        none 0 0).c.qcount = 0 ∧
      (ChanRead zeroedMal 7 4096 (sampleChan 3 5 1 3 [10, 20, 30, 40, 50]) 3
        none 0 0).c.qcount = 0 := by
  decide

/-- C14, evaluated where it fails: elements of 65535 bytes, capacity 40000,
`recvx = 39999`, `sendx = 32770`, 32771 elements buffered, `minnum = 1`.  The
array has 2147647485 bytes and position 32769 lies at byte offset 2147516415
of it, but the copy number 32769, from slot 32769, is called with the `int32`
product `32769 * 65535`, the destination `ret - 2147450881`. -/
theorem ChanRead_copy_offset_wraps :
    (1 ≤ (wideChan 65535 32771 40000 32770 39999).dataqsiz ∧
      1 ≤ (wideChan 65535 32771 40000 32770 39999).qcount) ∧
      (ChanRead zeroedMal 7 4096 (wideChan 65535 32771 40000 32770 39999) 1
        none 0 0).size = 2147647485 ∧
      (32769 : Int) * 65535 = 2147516415 ∧
      (copies (ChanRead zeroedMal 7 4096 (wideChan 65535 32771 40000 32770 39999) 1
        none 0 0).trace)[32769]? = some (-2147450881, 32769) := by
  have hmin : 1 ≤ (wideChan 65535 32771 40000 32770 39999).qcount := by decide
  have hcap : 1 ≤ (wideChan 65535 32771 40000 32770 39999).dataqsiz := by decide
  have hslots : copySlots (wideChan 65535 32771 40000 32770 39999)
      = List.range' 0 32770 := by
    simp [copySlots, wideChan]
  refine ⟨⟨hcap, hmin⟩, by decide, by decide, ?_⟩
  rw [ChanRead_drain_copies zeroedMal 7 4096 _ 1 none 0 0 hmin hcap, hslots,
    List.getElem?_map, List.getElem?_enum,
    List.getElem?_range' 0 1 (by decide : 32769 < 32770)]
  decide

/-- C17, evaluated where it fails: elements of 65535 bytes, capacity 32771,
`recvx = 0`, `sendx = 32770`, 32770 elements buffered without wrapping,
`minnum = 1`.  The array has 2147581950 bytes; the copy number 32769 is called
with the destination `ret - 2147450881`, before the block, so position 32769
of the returned array keeps the 0 of the fresh block while slot 32769 holds
32770. -/
theorem ChanRead_nonwrapped_last_copy_outside :
    (1 ≤ (wideChan 65535 32770 32771 32770 0).dataqsiz ∧
      (wideChan 65535 32770 32771 32770 0).recvx < (wideChan 65535 32770 32771 32770 0).sendx ∧
      (wideChan 65535 32770 32771 32770 0).sendx
        ≤ (wideChan 65535 32770 32771 32770 0).dataqsiz ∧
      (wideChan 65535 32770 32771 32770 0).qcount = 32770 - 0 ∧
      1 ≤ (wideChan 65535 32770 32771 32770 0).qcount) ∧
      (ChanRead zeroedMal 7 4096 (wideChan 65535 32770 32771 32770 0) 1
        none 0 0).size = 2147581950 ∧
      (copies (ChanRead zeroedMal 7 4096 (wideChan 65535 32770 32771 32770 0) 1
        none 0 0).trace)[32769]? = some (-2147450881, 32769) ∧
      (ChanRead zeroedMal 7 4096 (wideChan 65535 32770 32771 32770 0) 1
        none 0 0).fault = true ∧
      (ChanRead zeroedMal 7 4096 (wideChan 65535 32770 32771 32770 0) 1
        none 0 0).len = 32770 ∧
      ((ChanRead zeroedMal 7 4096 (wideChan 65535 32770 32771 32770 0) 1
        none 0 0).values.bind fun l => l[32769]?) = some 0 ∧
      chanbuf (wideChan 65535 32770 32771 32770 0) 32769 = 32770 := by
  have hmin : 1 ≤ (wideChan 65535 32770 32771 32770 0).qcount := by decide
  have hcap : 1 ≤ (wideChan 65535 32770 32771 32770 0).dataqsiz := by decide
  have hslots : copySlots (wideChan 65535 32770 32771 32770 0) = List.range' 0 32770 := by
    simp [copySlots, wideChan]
  have hget : (List.range' 0 32770)[32769]? = some 32769 :=
    List.getElem?_range' 0 1 (by decide : 32769 < 32770)
  have hsz : (wideChan 65535 32770 32771 32770 0).elemsize *
      (wideChan 65535 32770 32771 32770 0).qcount % 2 ^ 32 = 2147581950 := by decide
  have helem : (wideChan 65535 32770 32771 32770 0).elemsize = 65535 := rfl
  have hout : copyInside 65535 2147581950 (toInt32 ((0 + 32769 : Nat) : Int)) 32769
      = false := by decide
  refine ⟨by decide, by decide, ?_, ?_, by decide, ?_, by decide⟩
  · rw [ChanRead_drain_copies zeroedMal 7 4096 _ 1 none 0 0 hmin hcap, hslots,
      List.getElem?_map, List.getElem?_enum, hget]
    decide
  · rw [ChanRead_drain_fault zeroedMal 7 4096 _ 1 none 0 0 hmin hcap, hslots, hsz, helem]
    exact copyFault_of_outside 65535 2147581950 _ 0 false 32769 32769 hget hout
  · rw [ChanRead_drain_value zeroedMal 7 4096 _ 1 none 0 0 hmin hcap 32769 (by decide),
      hslots, hsz, helem, copyDst_untouched]
    · rfl
    · intro k i hk hin
      by_cases hk2 : k = 32769
      · subst hk2
        rw [hget] at hk
        simp only [Option.some.injEq] at hk
        subst hk
        rw [hout] at hin
        exact absurd hin (by decide)
      · have hlt : k < 32770 := by
          by_contra hge
          rw [List.getElem?_eq_none (by simp; omega)] at hk
          exact absurd hk (by simp)
        rw [Nat.zero_add, toInt32_of_lt _ (by omega) (by omega), Int.toNat_ofNat]
        exact hk2

/-- C19, evaluated where it fails: 8-byte elements, capacity `2^29 + 1`,
`recvx = 0`, `sendx = 2^29`, `2^29` elements buffered, `minnum = 1`.  The queue
invariant holds, the only allocation request is for 0 bytes, and the first
copy already stores 8 bytes at offset 0 of that block, outside of it. -/
theorem ChanRead_copy_outside_block :
    (1 ≤ (sampleChan 536870912 536870913 536870912 0 []).dataqsiz ∧
      (sampleChan 536870912 536870913 536870912 0 []).sendx < 536870913 ∧
      (sampleChan 536870912 536870913 536870912 0 []).recvx < 536870913 ∧
      (sampleChan 536870912 536870913 536870912 0 []).qcount
        = (536870912 + 536870913 - 0) % 536870913 ∧
      1 ≤ (sampleChan 536870912 536870913 536870912 0 []).qcount) ∧
      (sampleChan 536870912 536870913 536870912 0 []).elemsize = 8 ∧
      allocations (ChanRead zeroedMal 7 4096
        (sampleChan 536870912 536870913 536870912 0 []) 1 none 0 0).trace = [0] ∧
      (copies (ChanRead zeroedMal 7 4096
        (sampleChan 536870912 536870913 536870912 0 []) 1 none 0 0).trace)[0]?
        = some (0, 0) ∧
      (ChanRead zeroedMal 7 4096
        (sampleChan 536870912 536870913 536870912 0 []) 1 none 0 0).fault = true := by
  have hmin : 1 ≤ (sampleChan 536870912 536870913 536870912 0 []).qcount := by decide
  have hcap : 1 ≤ (sampleChan 536870912 536870913 536870912 0 []).dataqsiz := by decide
  have hslots : copySlots (sampleChan 536870912 536870913 536870912 0 [])
      = List.range' 0 536870912 := by
    simp [copySlots, sampleChan]
  have helem : (sampleChan 536870912 536870913 536870912 0 []).elemsize = 8 := rfl
  have hget : (List.range' 0 536870912)[0]? = some 0 :=
    List.getElem?_range' 0 1 (by decide : 0 < 536870912)
  have hsz : (sampleChan 536870912 536870913 536870912 0 []).elemsize *
      (sampleChan 536870912 536870913 536870912 0 []).qcount % 2 ^ 32 = 0 := by decide
  have hout : copyInside 8 0 (toInt32 ((0 + 0 : Nat) : Int)) 0 = false := by decide
  refine ⟨by decide, rfl, ?_, ?_, ?_⟩
  · rw [ChanRead_drain zeroedMal 7 4096 _ 1 none 0 0 hmin hcap]
    have ha : allocations (drainPrologue 7 4096
        (sampleChan 536870912 536870913 536870912 0 []) 1) = [0] := by decide
    have hu : allocations [Event.unlock] = [] := rfl
    simp only [allocations_append, ha, hu, allocations_copyEvents, List.append_nil]
  · rw [ChanRead_drain_copies zeroedMal 7 4096 _ 1 none 0 0 hmin hcap, hslots,
      List.getElem?_map, List.getElem?_enum, hget]
    decide
  · rw [ChanRead_drain_fault zeroedMal 7 4096 _ 1 none 0 0 hmin hcap, hslots, hsz, helem]
    exact copyFault_of_outside 8 0 _ 0 false 0 0 hget hout

end Chantools
